import Mathlib

/-!
Shallow embedding of `src/main.rs` of the `rusty_beginnings` repository: a
three-stage pipeline that discovers `*.jpeg` / `*.jpg` files in the current
directory, extracts EXIF metadata from each file in a data-parallel pass
(rayon's `par_iter().filter_map().collect::<Vec<_>>()`, which collects results
in input order), and writes the rows to `exif_output.csv` behind a timestamp
comment record, then sleeps 30 seconds and returns from `main` (exit status 0).

Modelling choices:
* A file path / file name is a `List Char` (Rust compares `OsStr` bytes; for
  well-formed UTF-8 names byte-lexicographic order and code-point-lexicographic
  order coincide, and byte equality coincides with char-list equality).
* The filesystem and the external collaborators (`rexif::parse_file`, the
  `csv` writer's underlying file I/O, `chrono::Local::now().to_rfc3339()`) are
  oracles packaged in a `World`; the code under test never branches on more of
  them than is shown here.
* The data-parallel extraction stage is embedded as a sequential `filterMap`:
  rayon's collect into a `Vec` assembles results in the order of the input
  collection regardless of completion order, and the per-file closure shares
  no mutable state.
* Output is modelled at record granularity: the `csv` writer is constructed
  with `flexible(true)`, writes each record verbatim (no padding, truncation
  or uniform-length check), so a run's CSV content is the list of records
  passed to `write_record`.
-/

/-- Rust `u8::to_ascii_lowercase` on a byte value: ASCII uppercase letters
(65–90) are shifted to lowercase (+32); every other value is unchanged. -/
def asciiLowerNat (n : Nat) : Nat :=
  if 65 ≤ n ∧ n ≤ 90 then n + 32 else n

/-- Rust `u8::eq_ignore_ascii_case`, lifted to chars
(`main.rs` line 18 compares `OsStr` bytes; on well-formed UTF-8 this is
the same as comparing scalar values, folding only ASCII uppercase). -/
def charEqIgnoreAsciiCase (a b : Char) : Bool :=
  asciiLowerNat a.toNat == asciiLowerNat b.toNat

/-- Rust `OsStr::eq_ignore_ascii_case` (`main.rs` line 18): equal length and
pointwise ASCII-case-folded equality. -/
def eqIgnoreAsciiCase : List Char → List Char → Bool
  | [], [] => true
  | a :: xs, b :: ys => charEqIgnoreAsciiCase a b && eqIgnoreAsciiCase xs ys
  | _, _ => false

/-- The characters after the last `.` of a list, if any. -/
def afterLastDot : List Char → Option (List Char)
  | [] => none
  | c :: cs =>
    match afterLastDot cs with
    | some e => some e
    | none => if c = '.' then some cs else none

/-- Rust `Path::extension` on a file name (`main.rs` line 17): the portion of
the name after the final `.`, where a `.` in the leading position does not
count (so `.jpg` has no extension); `none` when no such dot exists. -/
def pathExtension : List Char → Option (List Char)
  | [] => none
  | _ :: rest => afterLastDot rest

/-- One directory entry as `fs::read_dir` yields it: its file name and whether
`entry.path().is_file()` holds (true exactly for regular files, following
symlinks; false for directories and symlinks to directories). -/
structure DirEntry where
  name : List Char
  isFile : Bool
deriving DecidableEq

/-- The result of `fs::read_dir` on a directory: `none` when the directory
cannot be read, otherwise a listing whose elements are `none` when the
individual `DirEntry` result was an `Err` (skipped by `entry_res.ok()?`). -/
def listingOf : Option (List (Option DirEntry)) → List (Option DirEntry)
  | none => []
  | some entries => entries

/-- Embedding of `find_files_by_extension` (`main.rs` lines 9–26): all files in the
directory whose extension matches `extension` case-insensitively.
`fs::read_dir` failure yields an empty iterator (`into_iter().flatten()`);
erroring entries are dropped (`entry_res.ok()?`); only entries with
`path.is_file()` and an extension `eq_ignore_ascii_case` to the target
survive. The returned paths are identified by their file names (the constant
`./` directory prefix is common to all of them). `findFilesStep` is the body
of the `filter_map` closure (lines 13–24). -/
def findFilesStep (extension : List Char) (entryRes : Option DirEntry) :
    Option (List Char) :=
  match entryRes with
  | none => none
  | some entry =>
    if entry.isFile then
      match pathExtension entry.name with
      | some ext => if eqIgnoreAsciiCase ext extension then some entry.name else none
      | none => none
    else none

def find_files_by_extension (dirListing : Option (List (Option DirEntry)))
    (extension : List Char) : List (List Char) :=
  (listingOf dirListing).filterMap (findFilesStep extension)

/-- One EXIF tag entry as `rexif` reports it: a tag identifier and its
human-readable rendering. -/
structure ExifEntry where
  tag : String
  value_more_readable : String
deriving DecidableEq

/-- The structured result of a successful `rexif::parse_file`: a MIME type
string and the ordered collection of tag entries. -/
structure ExifData where
  mime : String
  entries : List ExifEntry
deriving DecidableEq

/-- Rust `Path::to_string_lossy().into_owned()` (`main.rs` line 31); in this
model names are already valid char lists, so the lossy conversion is exact. -/
def displayPath (p : List Char) : String := String.mk p

/-- Embedding of `extract_exif` (`main.rs` lines 30–48), with `rexif::parse_file` passed as
an oracle: on success the row is
`[path, mime, tag count, "tag₀: value₀", …]`; on failure `none`. -/
def extract_exif (parse_file : List Char → Except String ExifData)
    (file_path : List Char) : Option (List String) :=
  match parse_file file_path with
  | .ok exif =>
    some (displayPath file_path :: exif.mime :: toString exif.entries.length ::
      exif.entries.map fun entry => entry.tag ++ ": " ++ entry.value_more_readable)
  | .error _ => none

/-- The `eprintln!` message `extract_exif` emits on a parse failure
(`main.rs` line 44), `none` on success. -/
def extract_exif_errlog (parse_file : List Char → Except String ExifData)
    (file_path : List Char) : Option String :=
  match parse_file file_path with
  | .ok _ => none
  | .error e => some ("Failed to parse EXIF in " ++ displayPath file_path ++ ": " ++ e)

/-- The fixed output file name (`main.rs` line 55). -/
def output_path : String := "exif_output.csv"

/-- The writer's `flexible` flag (`main.rs` line 54): record lengths are not
checked against each other, so ragged rows are written as given. -/
def flexibleFlag : Bool := true

/-- The `csv` crate's per-record acceptance check: a writer built without
`flexible` rejects a record whose field count differs from the first written
record's; with `flexible` every record is accepted verbatim. -/
def writeRecordAccepts (flexible : Bool) (firstLen : Option Nat)
    (r : List String) : Bool :=
  flexible ||
    (match firstLen with
     | none => true
     | some n => r.length == n)

/-- The timestamp comment record (`main.rs` line 58): a single-field record
holding `# csv_created_at: ` followed by `Local::now().to_rfc3339()`. -/
def timestampRecord (now_rfc3339 : String) : List String :=
  ["# csv_created_at: " ++ now_rfc3339]

/-- The full record sequence `to_csv` writes (`main.rs` lines 58–62): the
timestamp comment record first, then every row verbatim, in order. -/
def csvRecords (now_rfc3339 : String) (rows : List (List String)) : List (List String) :=
  timestampRecord now_rfc3339 :: rows

/-- The observable outcome of one `to_csv` call: the records it handed to the
writer, the `Result` it returned, and what it printed to stdout. -/
structure ToCsvResult where
  attempted : List (List String)
  result : Except String Unit
  stdout : List String

/-- Embedding of `to_csv` (`main.rs` lines 51–68): builds the record sequence, attempts the
single write to `exif_output.csv` (the filesystem's disposition is the
`writeResult` oracle), and on success prints the confirmation line. -/
def to_csv (writeResult : Except String Unit) (now_rfc3339 : String)
    (rows : List (List String)) : ToCsvResult :=
  match writeResult with
  | .ok _ =>
    { attempted := csvRecords now_rfc3339 rows
      result := .ok ()
      stdout := ["EXIF data written to " ++ output_path] }
  | .error e =>
    { attempted := csvRecords now_rfc3339 rows
      result := .error e
      stdout := [] }

/-- Rust `Vec::<PathBuf>::sort()`'s order on paths inside one directory:
byte-lexicographic comparison of the file names. -/
def pathLe : List Char → List Char → Bool
  | [], _ => true
  | _ :: _, [] => false
  | a :: xs, b :: ys =>
    if a.toNat < b.toNat then true
    else if a.toNat = b.toNat then pathLe xs ys
    else false

/-- The environment of one run: the `read_dir` result for `.`, the
`rexif::parse_file` oracle, the filesystem's disposition for the one CSV
write, and the string `chrono::Local::now().to_rfc3339()` produces at the
moment `to_csv` runs (an RFC 3339 timestamp in the local timezone). -/
structure World where
  dirListing : Option (List (Option DirEntry))
  parse_file : List Char → Except String ExifData
  writeResult : Except String Unit
  now_rfc3339 : String

/-- The observable trace of one run of `main`. -/
structure Trace where
  files : List (List Char)
  exif_rows : List (List String)
  csvWrites : List (List (List String))
  stdout : List String
  stderr : List String
  sleepSeconds : Nat
  exitCode : Nat

/-- The message printed before the terminal sleep (`main.rs` line 87). -/
def sleepMessage : String := "Sleeping 30 seconds so you can read the message …"

/-- The sorted candidate list of `main` (`main.rs` lines 72–74): the `jpeg`
discovery results, then the `jpg` ones, sorted. -/
def mainFiles (w : World) : List (List Char) :=
  ((find_files_by_extension w.dirListing ("jpeg").data) ++
    (find_files_by_extension w.dirListing ("jpg").data)).mergeSort pathLe

/-- The surviving EXIF rows of `main` (`main.rs` lines 77–80): the
data-parallel `par_iter().filter_map(extract_exif).collect()`, which rayon
assembles in input order, embedded as a sequential `filterMap`. -/
def mainRows (w : World) : List (List String) :=
  (mainFiles w).filterMap (extract_exif w.parse_file)

/-- Embedding of `main` (`main.rs` lines 70–89) as a trace of observable effects. Parse
failures print to stderr from inside the parallel workers; their relative
order against each other is scheduler-dependent in the source, and this model
lists them in input order (the claims below only use membership). -/
def mainRun (w : World) : Trace :=
  let csv := to_csv w.writeResult w.now_rfc3339 (mainRows w)
  { files := mainFiles w
    exif_rows := mainRows w
    csvWrites := [csv.attempted]
    stdout := csv.stdout ++ [sleepMessage]
    stderr := (mainFiles w).filterMap (extract_exif_errlog w.parse_file) ++
      (match csv.result with
       | .ok _ => []
       | .error e => ["Error writing CSV: " ++ e])
    sleepSeconds := 30
    exitCode := 0 }

/-- Modelled from the spec (§4.1, §8): `name` ends, case-insensitively, with
the given suffix. -/
def ciEndsWithSpec (name suffix : List Char) : Prop :=
  ∃ pre suf, name = pre ++ suf ∧ eqIgnoreAsciiCase suf suffix = true

/-- Modelled from the spec (§4.1): the entry has an extension — its name has a
dot with a nonempty stem before it. -/
def hasExtensionSpec (name : List Char) : Prop :=
  ∃ stem ext, stem ≠ [] ∧ name = stem ++ '.' :: ext

/-- Modelled from the spec (claim C10's reading of case-insensitivity): two
chars that differ exactly by ASCII letter case, first upper. -/
def asciiCaseVariant (a b : Char) : Prop :=
  65 ≤ a.toNat ∧ a.toNat ≤ 90 ∧ b.toNat = a.toNat + 32

/-- A concrete run environment whose directory cannot be read. -/
def sampleEmptyWorld : World :=
  { dirListing := none
    parse_file := fun _ => Except.error ("unreadable")
    writeResult := Except.ok ()
    now_rfc3339 := "2024-01-01T00:00:00+00:00" }

/-- A concrete run environment with one discoverable file whose EXIF parse
fails. -/
def sampleFailWorld : World :=
  { dirListing := some [some { name := ("bad.jpg").data, isFile := true }]
    parse_file := fun _ => Except.error ("corrupt")
    writeResult := Except.ok ()
    now_rfc3339 := "2024-01-01T00:00:00+00:00" }

/-- A concrete run environment whose CSV write fails. -/
def sampleWriteFailWorld : World :=
  { dirListing := some []
    parse_file := fun _ => Except.error ("unused")
    writeResult := Except.error ("disk full")
    now_rfc3339 := "2024-01-01T00:00:00+00:00" }

/-- A concrete parser result with two tags, as in the spec's end-to-end
example. -/
def sampleExif : ExifData :=
  { mime := "image/jpeg"
    entries :=
      [{ tag := "Make", value_more_readable := "Canon" },
        { tag := "Model", value_more_readable := "EOS" }] }

/-- A parse oracle that succeeds on every path with `sampleExif`. -/
def sampleParseOk : List Char → Except String ExifData :=
  fun _ => Except.ok sampleExif

/-- A concrete readable directory entry named `a.jpg`. -/
def sampleEntryA : Option DirEntry := some { name := ("a.jpg").data, isFile := true }

/-- A concrete readable directory entry named `b.jpeg`. -/
def sampleEntryB : Option DirEntry := some { name := ("b.jpeg").data, isFile := true }

/-! ### Helper lemmas: ASCII case folding and extensions -/

theorem charToNat_inj {a b : Char} (h : a.toNat = b.toNat) : a = b :=
  Char.eq_of_val_eq (UInt32.ext h)

theorem charEqIgnoreAsciiCase_eq_true_iff {a b : Char} :
    charEqIgnoreAsciiCase a b = true ↔
      (a = b ∨ asciiCaseVariant a b ∨ asciiCaseVariant b a) := by
  rw [charEqIgnoreAsciiCase, beq_iff_eq]
  unfold asciiLowerNat asciiCaseVariant
  constructor
  · intro h
    by_cases ha : 65 ≤ a.toNat ∧ a.toNat ≤ 90 <;>
      by_cases hb : 65 ≤ b.toNat ∧ b.toNat ≤ 90
    · rw [if_pos ha, if_pos hb] at h
      exact Or.inl (charToNat_inj (by omega))
    · rw [if_pos ha, if_neg hb] at h
      exact Or.inr (Or.inl ⟨ha.1, ha.2, by omega⟩)
    · rw [if_neg ha, if_pos hb] at h
      exact Or.inr (Or.inr ⟨hb.1, hb.2, by omega⟩)
    · rw [if_neg ha, if_neg hb] at h
      exact Or.inl (charToNat_inj h)
  · rintro (rfl | ⟨h1, h2, h3⟩ | ⟨h1, h2, h3⟩)
    · rfl
    · rw [if_pos ⟨h1, h2⟩, if_neg (by omega)]
      omega
    · rw [if_neg (by omega), if_pos ⟨h1, h2⟩]
      omega

theorem charEq_dot_right_iff {a : Char} :
    charEqIgnoreAsciiCase a '.' = true ↔ a = '.' := by
  rw [charEqIgnoreAsciiCase_eq_true_iff]
  have hdot : ('.').toNat = 46 := rfl
  constructor
  · rintro (rfl | ⟨h1, h2, h3⟩ | ⟨h1, h2, h3⟩)
    · rfl
    · rw [hdot] at h3; omega
    · rw [hdot] at h1; omega
  · rintro rfl
    exact Or.inl rfl

theorem charEq_dot_left_iff {b : Char} :
    charEqIgnoreAsciiCase '.' b = true ↔ b = '.' := by
  rw [charEqIgnoreAsciiCase_eq_true_iff]
  have hdot : ('.').toNat = 46 := rfl
  constructor
  · rintro (rfl | ⟨h1, h2, h3⟩ | ⟨h1, h2, h3⟩)
    · rfl
    · rw [hdot] at h1; omega
    · rw [hdot] at h3; omega
  · rintro rfl
    exact Or.inl rfl

theorem eqIgnoreAsciiCase_length :
    ∀ {xs ys : List Char}, eqIgnoreAsciiCase xs ys = true → xs.length = ys.length
  | [], [], _ => rfl
  | [], _ :: _, h => by simp [eqIgnoreAsciiCase] at h
  | _ :: _, [], h => by simp [eqIgnoreAsciiCase] at h
  | a :: xs, b :: ys, h => by
    rw [eqIgnoreAsciiCase, Bool.and_eq_true] at h
    simpa using eqIgnoreAsciiCase_length h.2

theorem eqIgnoreAsciiCase_no_dot :
    ∀ {xs ys : List Char}, eqIgnoreAsciiCase xs ys = true → '.' ∉ ys → '.' ∉ xs
  | [], _, _, _ => by simp
  | _ :: _, [], h, _ => by simp [eqIgnoreAsciiCase] at h
  | a :: xs, b :: ys, h, hy => by
    rw [eqIgnoreAsciiCase, Bool.and_eq_true] at h
    intro hmem
    rcases List.mem_cons.mp hmem with rfl | hmem
    · exact hy (List.mem_cons.mpr (Or.inl (charEq_dot_left_iff.mp h.1).symm))
    · exact eqIgnoreAsciiCase_no_dot h.2 (fun hc => hy (List.mem_cons.mpr (Or.inr hc))) hmem

theorem afterLastDot_eq_none_iff : ∀ {l : List Char}, afterLastDot l = none ↔ '.' ∉ l
  | [] => by simp [afterLastDot]
  | c :: cs => by
    rw [afterLastDot]
    cases h : afterLastDot cs with
    | some e =>
      have hcs : '.' ∈ cs := by
        by_contra hc
        rw [afterLastDot_eq_none_iff.mpr hc] at h
        cases h
      simp [hcs]
    | none =>
      have hcs : '.' ∉ cs := afterLastDot_eq_none_iff.mp h
      by_cases hc : c = '.'
      · simp [hc]
      · simp [hc, hcs, Ne.symm hc]

theorem afterLastDot_eq_some_iff :
    ∀ (l : List Char) (e : List Char),
      afterLastDot l = some e ↔ ∃ p, l = p ++ '.' :: e ∧ '.' ∉ e
  | [], e => by
    simp [afterLastDot]
  | c :: cs, e => by
    rw [afterLastDot]
    cases h : afterLastDot cs with
    | some e2 =>
      simp only []
      constructor
      · intro he
        have he2 : e2 = e := by cases he; rfl
        rw [← he2]
        obtain ⟨p, hp, hd⟩ := (afterLastDot_eq_some_iff cs e2).mp h
        exact ⟨c :: p, by rw [hp]; rfl, hd⟩
      · rintro ⟨p, hp, hd⟩
        cases p with
        | nil =>
          obtain ⟨rfl, rfl⟩ : c = '.' ∧ cs = e := by
            simpa using hp
          rw [afterLastDot_eq_none_iff.mpr hd] at h
          cases h
        | cons q qs =>
          obtain ⟨rfl, hcs⟩ : c = q ∧ cs = qs ++ '.' :: e := by
            simpa using hp
          rw [(afterLastDot_eq_some_iff cs e).mpr ⟨qs, hcs, hd⟩] at h
          cases h
          rfl
    | none =>
      have hcs : '.' ∉ cs := afterLastDot_eq_none_iff.mp h
      by_cases hc : c = '.'
      · subst hc
        simp only [if_pos rfl]
        constructor
        · intro he
          obtain rfl : cs = e := by cases he; rfl
          exact ⟨[], rfl, hcs⟩
        · rintro ⟨p, hp, hd⟩
          cases p with
          | nil =>
            obtain rfl : cs = e := by simpa using hp
            rfl
          | cons q qs =>
            obtain ⟨-, hcs2⟩ : '.' = q ∧ cs = qs ++ '.' :: e := by
              simpa using hp
            exact absurd (hcs2 ▸ List.mem_append.mpr (Or.inr (List.mem_cons_self _ _))) hcs
      · simp only [if_neg hc]
        constructor
        · intro he
          cases he
        · rintro ⟨p, hp, hd⟩
          cases p with
          | nil =>
            exact absurd (by simpa using hp : c = '.' ∧ cs = e).1 hc
          | cons q qs =>
            obtain ⟨rfl, hcs2⟩ : c = q ∧ cs = qs ++ '.' :: e := by
              simpa using hp
            exact absurd (hcs2 ▸ List.mem_append.mpr (Or.inr (List.mem_cons_self _ _))) hcs

theorem findFilesStep_eq_some_iff {E : List Char} {entryRes : Option DirEntry}
    {name : List Char} :
    findFilesStep E entryRes = some name ↔
      ∃ entry : DirEntry, entryRes = some entry ∧ entry.name = name ∧
        entry.isFile = true ∧
        ∃ ext, pathExtension name = some ext ∧ eqIgnoreAsciiCase ext E = true := by
  cases entryRes with
  | none => simp [findFilesStep]
  | some entry =>
    rw [findFilesStep]
    by_cases hf : entry.isFile = true
    · rw [if_pos hf]
      split
      · rename_i ext0 hx
        by_cases hci0 : eqIgnoreAsciiCase ext0 E = true
        · rw [if_pos hci0]
          constructor
          · intro h
            injection h with h
            subst h
            exact ⟨entry, rfl, rfl, hf, ext0, hx, hci0⟩
          · rintro ⟨entry2, he, hname, hf2, ext, hxe, hci⟩
            injection he with he
            subst he
            rw [hname]
        · rw [if_neg hci0]
          constructor
          · intro h
            cases h
          · rintro ⟨entry2, he, hname, hf2, ext, hxe, hci⟩
            injection he with he
            subst he
            subst hname
            rw [hx] at hxe
            injection hxe with hxe
            subst hxe
            exact absurd hci hci0
      · rename_i hx
        constructor
        · intro h
          cases h
        · rintro ⟨entry2, he, hname, hf2, ext, hxe, hci⟩
          injection he with he
          subst he
          subst hname
          rw [hx] at hxe
          cases hxe
    · rw [if_neg hf]
      constructor
      · intro h
        cases h
      · rintro ⟨entry2, he, hname, hf2, ext, hxe, hci⟩
        injection he with he
        subst he
        exact absurd hf2 hf

theorem mem_find_files_iff {rd : Option (List (Option DirEntry))} {E name : List Char} :
    name ∈ find_files_by_extension rd E ↔
      ∃ entry : DirEntry, some entry ∈ listingOf rd ∧ entry.name = name ∧
        entry.isFile = true ∧
        ∃ ext, pathExtension name = some ext ∧ eqIgnoreAsciiCase ext E = true := by
  rw [find_files_by_extension, List.mem_filterMap]
  constructor
  · rintro ⟨entryRes, hmem, hstep⟩
    obtain ⟨entry, rfl, h⟩ := findFilesStep_eq_some_iff.mp hstep
    exact ⟨entry, hmem, h⟩
  · rintro ⟨entry, hmem, h⟩
    exact ⟨some entry, hmem, findFilesStep_eq_some_iff.mpr ⟨entry, rfl, h⟩⟩

theorem extension_match_iff_spec {name E : List Char} (hE : '.' ∉ E) :
    (∃ ext, pathExtension name = some ext ∧ eqIgnoreAsciiCase ext E = true) ↔
      (ciEndsWithSpec name ('.' :: E) ∧ hasExtensionSpec name) := by
  constructor
  · rintro ⟨ext, hx, hci⟩
    cases name with
    | nil => cases hx
    | cons c rest =>
      rw [pathExtension] at hx
      obtain ⟨p, hp, hd⟩ := (afterLastDot_eq_some_iff rest ext).mp hx
      subst hp
      refine ⟨⟨c :: p, '.' :: ext, rfl, ?_⟩, c :: p, ext, List.cons_ne_nil c p, rfl⟩
      rw [eqIgnoreAsciiCase, Bool.and_eq_true]
      exact ⟨charEq_dot_left_iff.mpr rfl, hci⟩
  · rintro ⟨⟨pre, suf, hname, hci⟩, stem, ext0, hstem, hsplit⟩
    cases suf with
    | nil => simp [eqIgnoreAsciiCase] at hci
    | cons d tl =>
      rw [eqIgnoreAsciiCase, Bool.and_eq_true] at hci
      obtain rfl : d = '.' := charEq_dot_right_iff.mp hci.1
      have htl : '.' ∉ tl := eqIgnoreAsciiCase_no_dot hci.2 hE
      cases pre with
      | nil =>
        exfalso
        rw [hname] at hsplit
        cases stem with
        | nil => exact hstem rfl
        | cons s ss =>
          obtain ⟨-, htl2⟩ : '.' = s ∧ tl = ss ++ '.' :: ext0 := by
            simpa using hsplit
          exact htl (htl2 ▸ List.mem_append.mpr (Or.inr (List.mem_cons_self _ _)))
      | cons c pre2 =>
        refine ⟨tl, ?_, hci.2⟩
        rw [hname]
        rw [List.cons_append, pathExtension]
        exact (afterLastDot_eq_some_iff _ tl).mpr ⟨pre2, rfl, htl⟩

/-! ### Helper lemmas: the path order and `filterMap` -/

theorem pathLe_cons_iff {x y : Char} {xs ys : List Char} :
    pathLe (x :: xs) (y :: ys) = true ↔
      x.toNat < y.toNat ∨ (x.toNat = y.toNat ∧ pathLe xs ys = true) := by
  rw [pathLe]
  by_cases h1 : x.toNat < y.toNat
  · simp [h1]
  · by_cases h2 : x.toNat = y.toNat <;> simp [h1, h2]

theorem pathLe_total : ∀ (a b : List Char), (pathLe a b || pathLe b a) = true
  | [], _ => by simp [pathLe]
  | _ :: _, [] => by simp [pathLe]
  | a :: xs, b :: ys => by
    rw [Bool.or_eq_true, pathLe_cons_iff, pathLe_cons_iff]
    rcases Nat.lt_trichotomy a.toNat b.toNat with h | h | h
    · exact Or.inl (Or.inl h)
    · have htot := pathLe_total xs ys
      rw [Bool.or_eq_true] at htot
      rcases htot with h2 | h2
      · exact Or.inl (Or.inr ⟨h, h2⟩)
      · exact Or.inr (Or.inr ⟨h.symm, h2⟩)
    · exact Or.inr (Or.inl h)

theorem pathLe_trans :
    ∀ {a b c : List Char}, pathLe a b = true → pathLe b c = true → pathLe a c = true
  | [], _, _, _, _ => rfl
  | _ :: _, [], _, hab, _ => by simp [pathLe] at hab
  | _ :: _, _ :: _, [], _, hbc => by simp [pathLe] at hbc
  | a :: xs, b :: ys, c :: zs, hab, hbc => by
    rw [pathLe_cons_iff] at hab hbc ⊢
    rcases hab with h1 | ⟨h1, h1t⟩ <;> rcases hbc with h2 | ⟨h2, h2t⟩
    · exact Or.inl (by omega)
    · exact Or.inl (by omega)
    · exact Or.inl (by omega)
    · exact Or.inr ⟨by omega, pathLe_trans h1t h2t⟩

theorem pathLe_antisymm :
    ∀ {a b : List Char}, pathLe a b = true → pathLe b a = true → a = b
  | [], [], _, _ => rfl
  | [], _ :: _, _, hba => by simp [pathLe] at hba
  | _ :: _, [], hab, _ => by simp [pathLe] at hab
  | a :: xs, b :: ys, hab, hba => by
    rw [pathLe_cons_iff] at hab hba
    rcases hab with h1 | ⟨h1, h1t⟩ <;> rcases hba with h2 | ⟨h2, h2t⟩
    · exact absurd h2 (by omega)
    · exact absurd h1 (by omega)
    · exact absurd h2 (by omega)
    · rw [charToNat_inj h1, pathLe_antisymm h1t h2t]

theorem sorted_mergeSort_pathLe (xs : List (List Char)) :
    List.Pairwise (fun a b => pathLe a b = true) (xs.mergeSort pathLe) :=
  @List.sorted_mergeSort _ pathLe (fun _ _ _ hab hbc => pathLe_trans hab hbc)
    pathLe_total xs

theorem mergeSort_pathLe_eq_of_perm {xs ys : List (List Char)} (h : xs.Perm ys) :
    xs.mergeSort pathLe = ys.mergeSort pathLe := by
  refine @List.eq_of_perm_of_sorted _ (fun a b => pathLe a b = true)
    ⟨fun _ _ hab hba => pathLe_antisymm hab hba⟩ _ _ ?_ ?_ ?_
  · exact (List.mergeSort_perm xs pathLe).trans (h.trans (List.mergeSort_perm ys pathLe).symm)
  · exact sorted_mergeSort_pathLe xs
  · exact sorted_mergeSort_pathLe ys

theorem filterMap_forall₂ {α β : Type} (f : α → Option β) :
    ∀ l : List α,
      List.Forall₂ (fun a b => f a = some b)
        (l.filter fun a => (f a).isSome) (l.filterMap f)
  | [] => List.Forall₂.nil
  | a :: l => by
    rw [List.filter_cons, List.filterMap_cons]
    cases h : f a with
    | none => simpa [h] using filterMap_forall₂ f l
    | some b =>
      simp only [h, Option.isSome_some, if_pos]
      exact List.Forall₂.cons h (filterMap_forall₂ f l)

theorem filterMap_middle_none {α β : Type} (f : α → Option β) (x : α)
    (hx : f x = none) (l1 l2 : List α) :
    (l1 ++ x :: l2).filterMap f = (l1 ++ l2).filterMap f := by
  rw [List.filterMap_append, List.filterMap_append, List.filterMap_cons, hx]

/-! ### Claim theorems -/

/-- C2: for every directory listing and extension string (an extension token,
so dot-free), `find_files_by_extension` returns exactly the set of regular
files in the directory whose name ends, case-insensitively, with `.` followed
by the extension, excluding non-files (directories, symlinks to directories),
unreadable entries, and entries lacking an extension. -/
theorem discovery_returns_exactly_matching_files
    (rd : Option (List (Option DirEntry))) (E : List Char) (hE : '.' ∉ E)
    (name : List Char) :
    name ∈ find_files_by_extension rd E ↔
      ∃ entry : DirEntry, some entry ∈ listingOf rd ∧ entry.name = name ∧
        entry.isFile = true ∧ ciEndsWithSpec name ('.' :: E) ∧
        hasExtensionSpec name := by
  rw [mem_find_files_iff]
  constructor
  · rintro ⟨entry, h1, h2, h3, h4⟩
    obtain ⟨hci, hhe⟩ := (extension_match_iff_spec hE).mp h4
    exact ⟨entry, h1, h2, h3, hci, hhe⟩
  · rintro ⟨entry, h1, h2, h3, hci, hhe⟩
    exact ⟨entry, h1, h2, h3, (extension_match_iff_spec hE).mpr ⟨hci, hhe⟩⟩

/-- Witness for C2 at a concrete listing holding `a.JPG` and target `jpg`. -/
theorem discovery_returns_exactly_matching_files_witness :
    ('.' ∉ ("jpg").data) ∧
      (("a.JPG").data ∈
          find_files_by_extension
            (some [some { name := ("a.JPG").data, isFile := true }]) (("jpg").data) ↔
        ∃ entry : DirEntry,
          some entry ∈
            listingOf (some [some { name := ("a.JPG").data, isFile := true }]) ∧
          entry.name = ("a.JPG").data ∧ entry.isFile = true ∧
          ciEndsWithSpec (("a.JPG").data) ('.' :: ("jpg").data) ∧
          hasExtensionSpec (("a.JPG").data)) :=
  ⟨by decide, discovery_returns_exactly_matching_files _ _ (by decide) _⟩

/-- C7: when the directory read fails (`fs::read_dir` returns `Err`),
discovery returns the empty list rather than an error, and the run continues:
the CSV write is still attempted once and the process still exits with
status 0. -/
theorem unreadable_directory_yields_empty (E : List Char) (w : World)
    (h : w.dirListing = none) :
    find_files_by_extension w.dirListing E = [] ∧
      mainFiles w = [] ∧
      (mainRun w).csvWrites.length = 1 ∧
      (mainRun w).sleepSeconds = 30 ∧
      (mainRun w).exitCode = 0 := by
  refine ⟨by rw [h]; rfl, ?_, rfl, rfl, rfl⟩
  rw [mainFiles, h]
  exact List.mergeSort_nil

/-- Witness for C7 at a concrete unreadable directory. -/
theorem unreadable_directory_yields_empty_witness :
    sampleEmptyWorld.dirListing = none ∧
      (find_files_by_extension sampleEmptyWorld.dirListing (("jpg").data) = [] ∧
        mainFiles sampleEmptyWorld = [] ∧
        (mainRun sampleEmptyWorld).csvWrites.length = 1 ∧
        (mainRun sampleEmptyWorld).sleepSeconds = 30 ∧
        (mainRun sampleEmptyWorld).exitCode = 0) :=
  ⟨rfl, unreadable_directory_yields_empty (("jpg").data) sampleEmptyWorld rfl⟩

/-- C10: the extension comparison the discovery stage uses is
case-insensitive exactly over ASCII letters: two extensions match iff they
have the same length and, position by position, the characters are equal or
are an ASCII uppercase/lowercase pair of the same letter — so any non-ASCII
character must match byte-for-byte. -/
theorem extension_match_ascii_case_insensitive (xs ys : List Char) :
    eqIgnoreAsciiCase xs ys = true ↔
      List.Forall₂ (fun a b => a = b ∨ asciiCaseVariant a b ∨ asciiCaseVariant b a)
        xs ys := by
  induction xs generalizing ys with
  | nil => cases ys <;> simp [eqIgnoreAsciiCase]
  | cons a xs ih =>
    cases ys with
    | nil => simp [eqIgnoreAsciiCase]
    | cons b ys =>
      rw [eqIgnoreAsciiCase, Bool.and_eq_true, List.forall₂_cons,
        charEqIgnoreAsciiCase_eq_true_iff, ih]

/-- C1: the sorted candidate list is sorted and is a permutation of the merged
discovery results, and the extraction stage preserves input-to-output
positional correspondence: row `i` of the surviving rows is the extraction
result of the `i`-th surviving file of the sorted input, and the data rows of
the written CSV are exactly those rows in that order. -/
theorem extraction_preserves_sorted_input_order (w : World) :
    List.Pairwise (fun a b => pathLe a b = true) (mainFiles w) ∧
      (mainFiles w).Perm
        (find_files_by_extension w.dirListing (("jpeg").data) ++
          find_files_by_extension w.dirListing (("jpg").data)) ∧
      List.Forall₂ (fun f r => extract_exif w.parse_file f = some r)
        ((mainFiles w).filter fun f => (extract_exif w.parse_file f).isSome)
        (mainRows w) ∧
      (mainRun w).csvWrites = [csvRecords w.now_rfc3339 (mainRows w)] := by
  refine ⟨sorted_mergeSort_pathLe _, List.mergeSort_perm _ _, filterMap_forall₂ _ _, ?_⟩
  cases hw : w.writeResult <;> simp [mainRun, to_csv, hw]

/-- C3: a file whose EXIF parse fails contributes no row, an error message
naming its path and the error is on the error stream, removing it from any
candidate list leaves the other files' rows unchanged, and every surviving
file still contributes exactly one row (the run is not aborted). -/
theorem parse_failure_isolated_and_logged (w : World) (f : List Char) (e : String)
    (hf : f ∈ mainFiles w) (he : w.parse_file f = Except.error e) :
    extract_exif w.parse_file f = none ∧
      ("Failed to parse EXIF in " ++ displayPath f ++ ": " ++ e) ∈ (mainRun w).stderr ∧
      (∀ l1 l2 : List (List Char),
        (l1 ++ f :: l2).filterMap (extract_exif w.parse_file) =
          (l1 ++ l2).filterMap (extract_exif w.parse_file)) ∧
      (mainRows w).length =
        ((mainFiles w).filter fun g => (extract_exif w.parse_file g).isSome).length := by
  have hnone : extract_exif w.parse_file f = none := by rw [extract_exif, he]
  refine ⟨hnone, ?_, fun l1 l2 => filterMap_middle_none _ f hnone l1 l2,
    (List.Forall₂.length_eq (filterMap_forall₂ _ _)).symm⟩
  have hmsg : extract_exif_errlog w.parse_file f =
      some ("Failed to parse EXIF in " ++ displayPath f ++ ": " ++ e) := by
    rw [extract_exif_errlog, he]
  refine List.mem_append_left _ (List.mem_filterMap.mpr ⟨f, hf, hmsg⟩)

/-- Witness for C3 at a concrete world whose one file fails to parse. -/
theorem parse_failure_isolated_and_logged_witness :
    (("bad.jpg").data ∈ mainFiles sampleFailWorld) ∧
      sampleFailWorld.parse_file (("bad.jpg").data) = Except.error ("corrupt") ∧
      (extract_exif sampleFailWorld.parse_file (("bad.jpg").data) = none ∧
        ("Failed to parse EXIF in " ++ displayPath (("bad.jpg").data) ++ ": " ++
            "corrupt") ∈ (mainRun sampleFailWorld).stderr ∧
        (∀ l1 l2 : List (List Char),
          (l1 ++ ("bad.jpg").data :: l2).filterMap
              (extract_exif sampleFailWorld.parse_file) =
            (l1 ++ l2).filterMap (extract_exif sampleFailWorld.parse_file)) ∧
        (mainRows sampleFailWorld).length =
          ((mainFiles sampleFailWorld).filter fun g =>
            (extract_exif sampleFailWorld.parse_file g).isSome).length) := by
  have hfiles : mainFiles sampleFailWorld = [("bad.jpg").data] := by
    rw [mainFiles]
    rw [show (find_files_by_extension sampleFailWorld.dirListing (("jpeg").data) ++
        find_files_by_extension sampleFailWorld.dirListing (("jpg").data)) =
        [("bad.jpg").data] by decide]
    exact List.mergeSort_singleton _
  have h1 : ("bad.jpg").data ∈ mainFiles sampleFailWorld := by
    rw [hfiles]
    exact List.mem_singleton_self _
  exact ⟨h1, rfl, parse_failure_isolated_and_logged sampleFailWorld _ _ h1 rfl⟩

/-- C4: a successful extraction yields the row
`[path display, MIME, decimal tag count, "tag: value", …]` — length exactly
`3 + N` for `N` reported tags, fields in parser-reported order — and the CSV
writer emits given rows verbatim after the timestamp record (no padding or
truncation). -/
theorem exif_row_shape (parse : List Char → Except String ExifData)
    (p : List Char) (exif : ExifData) (h : parse p = Except.ok exif) :
    extract_exif parse p =
        some (displayPath p :: exif.mime :: toString exif.entries.length ::
          exif.entries.map fun en => en.tag ++ ": " ++ en.value_more_readable) ∧
      (∀ row, extract_exif parse p = some row →
        row.length = 3 + exif.entries.length ∧
        row.head? = some (displayPath p) ∧
        row[1]? = some exif.mime ∧
        row[2]? = some (toString exif.entries.length) ∧
        row.drop 3 = exif.entries.map fun en => en.tag ++ ": " ++ en.value_more_readable) ∧
      (∀ now rows, (csvRecords now rows).drop 1 = rows) ∧
      (∀ firstLen r, writeRecordAccepts flexibleFlag firstLen r = true) := by
  have hx : extract_exif parse p =
      some (displayPath p :: exif.mime :: toString exif.entries.length ::
        exif.entries.map fun en => en.tag ++ ": " ++ en.value_more_readable) := by
    rw [extract_exif, h]
  refine ⟨hx, ?_, fun _ _ => rfl, fun _ _ => rfl⟩
  intro row hrow
  rw [hx] at hrow
  injection hrow with hrow
  subst hrow
  refine ⟨?_, rfl, by simp, by simp, rfl⟩
  simp [List.length_map]
  omega

/-- Witness for C4 at a concrete parser result with two tags. -/
theorem exif_row_shape_witness :
    sampleParseOk (("b.JPEG").data) = Except.ok sampleExif ∧
      (extract_exif sampleParseOk (("b.JPEG").data) =
          some (displayPath (("b.JPEG").data) :: sampleExif.mime ::
            toString sampleExif.entries.length ::
            sampleExif.entries.map fun en => en.tag ++ ": " ++ en.value_more_readable) ∧
        (∀ row, extract_exif sampleParseOk (("b.JPEG").data) = some row →
          row.length = 3 + sampleExif.entries.length ∧
          row.head? = some (displayPath (("b.JPEG").data)) ∧
          row[1]? = some sampleExif.mime ∧
          row[2]? = some (toString sampleExif.entries.length) ∧
          row.drop 3 =
            sampleExif.entries.map fun en => en.tag ++ ": " ++ en.value_more_readable) ∧
        (∀ now rows, (csvRecords now rows).drop 1 = rows) ∧
        (∀ firstLen r, writeRecordAccepts flexibleFlag firstLen r = true)) :=
  ⟨rfl, exif_row_shape _ _ _ rfl⟩

/-- C5: when the CSV write fails, the error is reported on the error stream,
exactly one write to the fixed output path is attempted (no retry, no
alternate path), the run still reaches its final step (the sleep message and
the 30-second sleep) and exits with status 0 — the same exit status as every
run, so the failure is not distinguishable through the exit mechanism. -/
theorem write_failure_nonfatal_exit_zero (w : World) (e : String)
    (h : w.writeResult = Except.error e) :
    ("Error writing CSV: " ++ e) ∈ (mainRun w).stderr ∧
      (mainRun w).csvWrites = [csvRecords w.now_rfc3339 (mainRows w)] ∧
      (mainRun w).stdout.getLast? = some sleepMessage ∧
      (mainRun w).sleepSeconds = 30 ∧
      (mainRun w).exitCode = 0 ∧
      (∀ w2 : World, (mainRun w2).exitCode = 0) := by
  refine ⟨?_, ?_, ?_, rfl, rfl, fun _ => rfl⟩
  · simp only [mainRun, to_csv, h]
    exact List.mem_append_right _ (List.mem_singleton_self _)
  · simp [mainRun, to_csv, h]
  · simp [mainRun, to_csv, h]

/-- Witness for C5 at a concrete world whose write fails with `disk full`. -/
theorem write_failure_nonfatal_exit_zero_witness :
    sampleWriteFailWorld.writeResult = Except.error ("disk full") ∧
      (("Error writing CSV: " ++ "disk full") ∈ (mainRun sampleWriteFailWorld).stderr ∧
        (mainRun sampleWriteFailWorld).csvWrites =
          [csvRecords sampleWriteFailWorld.now_rfc3339 (mainRows sampleWriteFailWorld)] ∧
        (mainRun sampleWriteFailWorld).stdout.getLast? = some sleepMessage ∧
        (mainRun sampleWriteFailWorld).sleepSeconds = 30 ∧
        (mainRun sampleWriteFailWorld).exitCode = 0 ∧
        (∀ w2 : World, (mainRun w2).exitCode = 0)) :=
  ⟨rfl, write_failure_nonfatal_exit_zero sampleWriteFailWorld _ rfl⟩

/-- C6: the one attempted CSV write always begins with the single-field
comment record `# csv_created_at: <timestamp>` (the timestamp being what
`chrono::Local::now().to_rfc3339()` produced, an RFC 3339 rendering in the
local timezone), and all data rows come after it. -/
theorem first_record_is_timestamp_comment (w : World) :
    ∃ rows, (mainRun w).csvWrites = [timestampRecord w.now_rfc3339 :: rows] ∧
      timestampRecord w.now_rfc3339 = ["# csv_created_at: " ++ w.now_rfc3339] ∧
      (timestampRecord w.now_rfc3339).length = 1 ∧
      rows = mainRows w := by
  refine ⟨mainRows w, ?_, rfl, rfl, rfl⟩
  cases hw : w.writeResult <;> simp [mainRun, to_csv, csvRecords, hw]

/-- C8: for a fixed filesystem state (the same entries up to listing order,
the same parser behaviour, the same write disposition), two runs produce the
same candidate list, the same data rows, the same error stream, and CSV
record sequences that differ only in the timestamp comment record. -/
theorem pipeline_deterministic_up_to_timestamp
    (l1 l2 : List (Option DirEntry)) (hperm : l1.Perm l2)
    (parse : List Char → Except String ExifData)
    (wres : Except String Unit) (t1 t2 : String) :
    mainFiles (World.mk (some l1) parse wres t1) =
        mainFiles (World.mk (some l2) parse wres t2) ∧
      mainRows (World.mk (some l1) parse wres t1) =
        mainRows (World.mk (some l2) parse wres t2) ∧
      (mainRun (World.mk (some l1) parse wres t1)).csvWrites =
        [timestampRecord t1 :: mainRows (World.mk (some l2) parse wres t2)] ∧
      (mainRun (World.mk (some l2) parse wres t2)).csvWrites =
        [timestampRecord t2 :: mainRows (World.mk (some l2) parse wres t2)] ∧
      (mainRun (World.mk (some l1) parse wres t1)).stderr =
        (mainRun (World.mk (some l2) parse wres t2)).stderr := by
  have hfiles : mainFiles (World.mk (some l1) parse wres t1) =
      mainFiles (World.mk (some l2) parse wres t2) := by
    rw [mainFiles, mainFiles]
    exact mergeSort_pathLe_eq_of_perm
      (List.Perm.append (List.Perm.filterMap _ hperm) (List.Perm.filterMap _ hperm))
  have hrows : mainRows (World.mk (some l1) parse wres t1) =
      mainRows (World.mk (some l2) parse wres t2) := by
    rw [mainRows, mainRows, hfiles]
  refine ⟨hfiles, hrows, ?_, ?_, ?_⟩
  · cases wres <;> simp [mainRun, to_csv, csvRecords, hrows]
  · cases wres <;> simp [mainRun, to_csv, csvRecords]
  · cases wres <;> simp [mainRun, to_csv, hfiles]

/-- Witness for C8 at two listings of the same two entries in swapped
order. -/
theorem pipeline_deterministic_up_to_timestamp_witness :
    ([sampleEntryA, sampleEntryB].Perm [sampleEntryB, sampleEntryA]) ∧
      (mainFiles (World.mk (some [sampleEntryA, sampleEntryB])
          sampleParseOk (Except.ok ()) ("T1")) =
        mainFiles (World.mk (some [sampleEntryB, sampleEntryA])
          sampleParseOk (Except.ok ()) ("T2")) ∧
      mainRows (World.mk (some [sampleEntryA, sampleEntryB])
          sampleParseOk (Except.ok ()) ("T1")) =
        mainRows (World.mk (some [sampleEntryB, sampleEntryA])
          sampleParseOk (Except.ok ()) ("T2")) ∧
      (mainRun (World.mk (some [sampleEntryA, sampleEntryB])
          sampleParseOk (Except.ok ()) ("T1"))).csvWrites =
        [timestampRecord ("T1") ::
          mainRows (World.mk (some [sampleEntryB, sampleEntryA])
            sampleParseOk (Except.ok ()) ("T2"))] ∧
      (mainRun (World.mk (some [sampleEntryB, sampleEntryA])
          sampleParseOk (Except.ok ()) ("T2"))).csvWrites =
        [timestampRecord ("T2") ::
          mainRows (World.mk (some [sampleEntryB, sampleEntryA])
            sampleParseOk (Except.ok ()) ("T2"))] ∧
      (mainRun (World.mk (some [sampleEntryA, sampleEntryB])
          sampleParseOk (Except.ok ()) ("T1"))).stderr =
        (mainRun (World.mk (some [sampleEntryB, sampleEntryA])
          sampleParseOk (Except.ok ()) ("T2"))).stderr) :=
  ⟨by decide,
    pipeline_deterministic_up_to_timestamp _ _ (by decide) sampleParseOk (Except.ok ())
      ("T1") ("T2")⟩

/-- C9: when every candidate file is dropped (none discovered, or all parse
failures), the CSV write is still attempted, with exactly one record: the
timestamp comment row. -/
theorem empty_input_still_writes_header_only_csv (w : World)
    (h : ∀ f ∈ mainFiles w, extract_exif w.parse_file f = none) :
    mainRows w = [] ∧
      (mainRun w).csvWrites = [[("# csv_created_at: " ++ w.now_rfc3339)] :: [] ] ∧
      (mainRun w).exitCode = 0 := by
  have hrows : mainRows w = [] := by
    rw [mainRows]
    exact List.filterMap_eq_nil_iff.mpr h
  refine ⟨hrows, ?_, rfl⟩
  cases hw : w.writeResult <;>
    simp [mainRun, to_csv, csvRecords, hrows, timestampRecord, hw]

/-- Witness for C9 at a concrete world whose directory cannot be read. -/
theorem empty_input_still_writes_header_only_csv_witness :
    (∀ f ∈ mainFiles sampleEmptyWorld,
        extract_exif sampleEmptyWorld.parse_file f = none) ∧
      (mainRows sampleEmptyWorld = [] ∧
        (mainRun sampleEmptyWorld).csvWrites =
          [[("# csv_created_at: " ++ sampleEmptyWorld.now_rfc3339)] :: [] ] ∧
        (mainRun sampleEmptyWorld).exitCode = 0) := by
  have hfiles : mainFiles sampleEmptyWorld = [] := by
    rw [mainFiles]
    exact List.mergeSort_nil
  have h : ∀ f ∈ mainFiles sampleEmptyWorld,
      extract_exif sampleEmptyWorld.parse_file f = none := by
    intro f hf
    rw [hfiles] at hf
    exact absurd hf (List.not_mem_nil f)
  exact ⟨h, empty_input_still_writes_header_only_csv sampleEmptyWorld h⟩
